import Mathlib

/-!
Shallow embedding of the scheduling core of the task/reminder calendar app
(`MainPage.js`): time-string arithmetic, the per-date busy-slot index, the
first-fit slot finder, the auto-scheduling orchestrator, and the
reminder-task link maintenance, together with theorems settling the frozen
claims about them.

Modelling conventions:
* JavaScript strings are modelled as `List Char`.
* JavaScript numbers appearing as minute counts, day indices and ids are
  modelled as `Nat` (the code only ever produces non-negative integers for
  these); the `NaN` value produced by failed numeric conversion is modelled
  as `none` in an `Option`.
* Calendar dates (`"YYYY-MM-DD"` strings / `Date` objects at day
  granularity) are modelled as `Nat` day indices; adding one day is `+ 1`
  and date comparison is `≤`, matching the order-isomorphism between ISO
  date strings of one era and day counts.
* Firestore document stores are modelled as in-memory lists; a write is a
  functional update of the corresponding list.
-/

/-! ## Time arithmetic (`timeToMinutes`, `minutesToTime`, `calculateDuration`) -/

/-- Numeric value of a decimal digit character, `none` for non-digits. -/
def digitVal (c : Char) : Option Nat :=
  if '0' ≤ c ∧ c ≤ '9' then some (c.toNat - 48) else none

/-- Boolean test for a decimal digit character. -/
def isDigitB (c : Char) : Bool :=
  decide ('0' ≤ c) && decide (c ≤ '9')

/-- Value of a character list as a decimal numeral, `none` if any character
is not a digit.  The empty list evaluates to `0`, matching JavaScript
`Number("") === 0`. -/
def decimalValue (cs : List Char) : Option Nat :=
  cs.foldl
    (fun acc c =>
      match acc, digitVal c with
      | some a, some d => some (10 * a + d)
      | _, _ => none)
    (some 0)

/-- Models the JavaScript `Number(s)` conversion on the string shapes the
time helpers feed it: the empty string gives `0` and a string of decimal
digits gives its value; any other string gives `NaN`, modelled `none`. -/
def jsNumber (cs : List Char) : Option Nat :=
  decimalValue cs

/-- Models JavaScript `parseInt(s)` on the string shapes `calculateDuration`
feeds it: the value of the longest leading run of decimal digits, `NaN`
(modelled `none`) when the string does not start with a digit. -/
def jsParseInt (cs : List Char) : Option Nat :=
  let ds := cs.takeWhile isDigitB
  if ds.isEmpty then none else decimalValue ds

/-- Models `s.split(":")`: splits a character list at every `':'`.  The
result is always non-empty. -/
def splitOnColon : List Char → List (List Char)
  | [] => [[]]
  | c :: rest =>
    match splitOnColon rest with
    | [] => [[]]
    | p :: ps => if c = ':' then [] :: p :: ps else (c :: p) :: ps

/-- Embeds `timeToMinutes` (MainPage.js): split on `":"`, convert the first
two parts with `Number`, return `h * 60 + m`.  A missing second part or a
non-numeric part makes the JavaScript result `NaN`, modelled `none`. -/
def timeToMinutes (timeStr : List Char) : Option Nat :=
  match (splitOnColon timeStr).map jsNumber with
  | some h :: some m :: _ => some (h * 60 + m)
  | _ => none

/-- Decimal digit character of `d < 10`, as produced by JavaScript
`String(d)`. -/
def digitChar (d : Nat) : Char :=
  match d with
  | 0 => '0' | 1 => '1' | 2 => '2' | 3 => '3' | 4 => '4'
  | 5 => '5' | 6 => '6' | 7 => '7' | 8 => '8' | _ => '9'

/-- Structural helper for `toDigitChars`; the fuel argument only needs to
dominate the number, which lets the definition reduce by iota rules. -/
def toDigitCharsAux : Nat → Nat → List Char
  | 0, n => [digitChar n]
  | fuel + 1, n =>
    if n < 10 then [digitChar n]
    else toDigitCharsAux fuel (n / 10) ++ [digitChar (n % 10)]

/-- Decimal numeral of a natural number as a character list, as produced by
JavaScript `String(n)`. -/
def toDigitChars (n : Nat) : List Char := toDigitCharsAux n n

lemma toDigitCharsAux_fuel :
    ∀ (f1 : Nat) {f2 n : Nat}, n ≤ f1 → n ≤ f2 →
      toDigitCharsAux f1 n = toDigitCharsAux f2 n := by
  intro f1
  induction f1 with
  | zero =>
    intro f2 n h1 _
    interval_cases n
    cases f2 with
    | zero => rfl
    | succ g => simp [toDigitCharsAux]
  | succ f ih =>
    intro f2 n h1 h2
    cases f2 with
    | zero =>
      interval_cases n
      simp [toDigitCharsAux]
    | succ g =>
      by_cases hn : n < 10
      · simp [toDigitCharsAux, hn]
      · have hdiv : n / 10 < n := Nat.div_lt_self (by omega) (by omega)
        simp only [toDigitCharsAux, if_neg hn]
        rw [@ih g (n / 10) (by omega) (by omega)]

lemma toDigitChars_eq (n : Nat) :
    toDigitChars n =
      if n < 10 then [digitChar n]
      else toDigitChars (n / 10) ++ [digitChar (n % 10)] := by
  by_cases hn : n < 10
  · rw [if_pos hn]
    unfold toDigitChars
    cases n with
    | zero => rfl
    | succ m => simp [toDigitCharsAux, hn]
  · rw [if_neg hn]
    unfold toDigitChars
    cases n with
    | zero => omega
    | succ m =>
      have hdiv : (m + 1) / 10 < m + 1 := Nat.div_lt_self (by omega) (by omega)
      simp only [toDigitCharsAux, if_neg hn]
      rw [toDigitCharsAux_fuel m (by omega) (le_refl _)]

/-- Models `s.padStart(2, "0")`. -/
def padStart2 (cs : List Char) : List Char :=
  if cs.length < 2 then List.replicate (2 - cs.length) '0' ++ cs else cs

/-- Embeds `minutesToTime` (MainPage.js): `h = Math.floor(minutes / 60)`,
`m = minutes % 60`, each rendered zero-padded to two characters and joined
with `":"`.  Note there is no reduction modulo 1440. -/
def minutesToTime (minutes : Nat) : List Char :=
  padStart2 (toDigitChars (minutes / 60)) ++ ':' :: padStart2 (toDigitChars (minutes % 60))

/-! ### Round-trip lemmas for the decimal numerals -/

lemma digitVal_digitChar {d : Nat} (h : d < 10) : digitVal (digitChar d) = some d := by
  interval_cases d <;> decide

lemma digitChar_ne_colon {d : Nat} : digitChar d ≠ ':' := by
  unfold digitChar
  split <;> decide

lemma decimalValue_append (a b : List Char) :
    decimalValue (a ++ b) =
      b.foldl
        (fun acc c =>
          match acc, digitVal c with
          | some a, some d => some (10 * a + d)
          | _, _ => none)
        (decimalValue a) := by
  simp [decimalValue, List.foldl_append]

lemma decimalValue_aux_none (b : List Char) :
    b.foldl
        (fun acc c =>
          match acc, digitVal c with
          | some a, some d => some (10 * a + d)
          | _, _ => none)
        none = none := by
  induction b with
  | nil => rfl
  | cons c cs ih => simpa using ih

lemma decimalValue_toDigitChars (n : Nat) : decimalValue (toDigitChars n) = some n := by
  induction n using Nat.strong_induction_on with
  | _ n ih =>
    by_cases h : n < 10
    · rw [toDigitChars_eq]
      simp [h, decimalValue, digitVal_digitChar h]
    · rw [toDigitChars_eq]
      simp only [h, if_false]
      rw [decimalValue_append, ih (n / 10) (Nat.div_lt_self (by omega) (by omega))]
      simp [digitVal_digitChar (Nat.mod_lt n (by omega))]
      omega

lemma mem_toDigitChars_digit {n : Nat} {c : Char} (h : c ∈ toDigitChars n) :
    (digitVal c).isSome := by
  induction n using Nat.strong_induction_on with
  | _ n ih =>
    by_cases hn : n < 10
    · rw [toDigitChars_eq] at h
      simp [hn] at h
      subst h
      rw [digitVal_digitChar hn]
      rfl
    · rw [toDigitChars_eq] at h
      simp only [hn, if_false, List.mem_append, List.mem_singleton] at h
      rcases h with h | h
      · exact ih (n / 10) (Nat.div_lt_self (by omega) (by omega)) h
      · subst h
        rw [digitVal_digitChar (Nat.mod_lt n (by omega))]
        rfl

lemma mem_padStart2_digit {cs : List Char} {c : Char}
    (hcs : ∀ x ∈ cs, (digitVal x).isSome) (h : c ∈ padStart2 cs) :
    (digitVal c).isSome := by
  unfold padStart2 at h
  split at h
  · rcases List.mem_append.1 h with h | h
    · rw [List.eq_of_mem_replicate h]
      decide
    · exact hcs c h
  · exact hcs c h

lemma decimalValue_padStart2 {cs : List Char} (h : decimalValue cs = some n) :
    decimalValue (padStart2 cs) = some n := by
  unfold padStart2
  split
  · rw [show List.replicate (2 - cs.length) '0' ++ cs =
        List.replicate (2 - cs.length) '0' ++ cs from rfl]
    induction 2 - cs.length with
    | zero => simpa using h
    | succ k ihk =>
      rw [List.replicate_succ]
      simp only [List.cons_append]
      rw [show decimalValue ('0' :: (List.replicate k '0' ++ cs)) =
          decimalValue (List.replicate k '0' ++ cs) from ?_]
      · exact ihk
      · simp [decimalValue, digitVal]
  · exact h

lemma splitOnColon_cons (c : Char) (rest : List Char) :
    splitOnColon (c :: rest) =
      match splitOnColon rest with
      | [] => [[]]
      | p :: ps => if c = ':' then [] :: p :: ps else (c :: p) :: ps := rfl

lemma splitOnColon_ne_nil (cs : List Char) : splitOnColon cs ≠ [] := by
  cases cs with
  | nil => simp [splitOnColon]
  | cons c rest =>
    rw [splitOnColon_cons]
    cases h : splitOnColon rest with
    | nil => simp
    | cons p ps => by_cases hc : c = ':' <;> simp [hc]

lemma splitOnColon_colon_cons (b : List Char) :
    splitOnColon (':' :: b) = [] :: splitOnColon b := by
  rw [splitOnColon_cons]
  cases h : splitOnColon b with
  | nil => exact absurd h (splitOnColon_ne_nil b)
  | cons p ps => simp

lemma splitOnColon_ne_colon_cons {c : Char} (hc : c ≠ ':') (b : List Char)
    (p : List Char) (ps : List (List Char)) (h : splitOnColon b = p :: ps) :
    splitOnColon (c :: b) = (c :: p) :: ps := by
  rw [splitOnColon_cons, h]
  simp [hc]

lemma splitOnColon_no_colon {a : List Char} (ha : ∀ c ∈ a, c ≠ ':') :
    splitOnColon a = [a] := by
  induction a with
  | nil => rfl
  | cons c a ih =>
    have hc : c ≠ ':' := ha c (by simp)
    exact splitOnColon_ne_colon_cons hc _ _ _ (ih (fun x hx => ha x (by simp [hx])))

lemma splitOnColon_no_colon_append {a : List Char} (ha : ∀ c ∈ a, c ≠ ':')
    (b : List Char) :
    splitOnColon (a ++ ':' :: b) = a :: splitOnColon b := by
  induction a with
  | nil => simpa using splitOnColon_colon_cons b
  | cons c a ih =>
    have hc : c ≠ ':' := ha c (by simp)
    have ih' := ih (fun x hx => ha x (by simp [hx]))
    simp only [List.cons_append]
    exact splitOnColon_ne_colon_cons hc _ _ _ ih'

/-- Printing a minute count with `minutesToTime` and parsing it back with
`timeToMinutes` is the identity, for every natural number of minutes. -/
lemma timeToMinutes_minutesToTime (m : Nat) :
    timeToMinutes (minutesToTime m) = some m := by
  unfold minutesToTime timeToMinutes
  rw [splitOnColon_no_colon_append]
  · rw [List.map_cons]
    have h1 : jsNumber (padStart2 (toDigitChars (m / 60))) = some (m / 60) :=
      decimalValue_padStart2 (decimalValue_toDigitChars _)
    have h2 : jsNumber (padStart2 (toDigitChars (m % 60))) = some (m % 60) :=
      decimalValue_padStart2 (decimalValue_toDigitChars _)
    have h3 : splitOnColon (padStart2 (toDigitChars (m % 60))) =
        [padStart2 (toDigitChars (m % 60))] := by
      apply splitOnColon_no_colon
      intro c hc
      have := mem_padStart2_digit (fun x hx => mem_toDigitChars_digit hx) hc
      intro hcolon
      subst hcolon
      simp [digitVal] at this
    rw [h3]
    simp only [List.map_cons, List.map_nil]
    rw [h1, h2]
    have := Nat.div_add_mod m 60
    simp
    omega
  · intro c hc
    have := mem_padStart2_digit (fun x hx => mem_toDigitChars_digit hx) hc
    intro hcolon
    subst hcolon
    simp [digitVal] at this

/-! ## Busy intervals and the slot finder (`findSlotForEstimate`) -/

/-- A busy interval on one date, in minutes since midnight.  In the source
an interval is a `{start, end}` pair of `"HH:MM"` strings; by the
round-trip lemma `timeToMinutes_minutesToTime`,Modelling intervals directly
by their minute values is exact.  The `end` field is called `stop` because
`end` is reserved in Lean. -/
structure Iv where
  start : Nat
  stop : Nat
deriving DecidableEq

/-- Two intervals overlap when their half-open spans intersect. -/
def overlaps (a b : Iv) : Prop := a.start < b.stop ∧ b.start < a.stop

instance (a b : Iv) : Decidable (overlaps a b) := by
  unfold overlaps
  infer_instance

lemma overlaps_symm {a b : Iv} (h : overlaps a b) : overlaps b a :=
  ⟨h.2, h.1⟩

/-- Insertion into a list sorted ascending by the key. -/
def insertByKey {α : Type} (key : α → Nat) (x : α) : List α → List α
  | [] => [x]
  | y :: ys => if key x ≤ key y then x :: y :: ys else y :: insertByKey key x ys

/-- Insertion sort by a numeric key.  It models the JavaScript
`Array.prototype.sort` calls of the source, all of which compare a single
numeric key: the model only relies on the output being sorted by that key
and a permutation of the input. -/
def sortByKey {α : Type} (key : α → Nat) : List α → List α
  | [] => []
  | x :: xs => insertByKey key x (sortByKey key xs)

lemma mem_insertByKey {α : Type} {key : α → Nat} {x y : α} {l : List α} :
    y ∈ insertByKey key x l ↔ y = x ∨ y ∈ l := by
  induction l with
  | nil => simp [insertByKey]
  | cons z zs ih =>
    unfold insertByKey
    split
    · simp
    · simp only [List.mem_cons, ih]
      tauto

lemma insertByKey_pairwise {α : Type} {key : α → Nat} {x : α} {l : List α}
    (h : l.Pairwise (fun a b => key a ≤ key b)) :
    (insertByKey key x l).Pairwise (fun a b => key a ≤ key b) := by
  induction l with
  | nil => simp [insertByKey]
  | cons z zs ih =>
    rw [List.pairwise_cons] at h
    unfold insertByKey
    split
    · rename_i hle
      rw [List.pairwise_cons]
      refine ⟨?_, List.pairwise_cons.2 h⟩
      intro b hb
      rcases List.mem_cons.1 hb with rfl | hb
      · exact hle
      · exact le_trans hle (h.1 b hb)
    · rename_i hgt
      rw [List.pairwise_cons]
      refine ⟨?_, ih h.2⟩
      intro b hb
      rcases mem_insertByKey.1 hb with rfl | hb
      · omega
      · exact h.1 b hb

lemma sortByKey_pairwise {α : Type} {key : α → Nat} (l : List α) :
    (sortByKey key l).Pairwise (fun a b => key a ≤ key b) := by
  induction l with
  | nil => simp [sortByKey]
  | cons x xs ih => exact insertByKey_pairwise ih

lemma mem_sortByKey {α : Type} {key : α → Nat} {y : α} {l : List α} :
    y ∈ sortByKey key l ↔ y ∈ l := by
  induction l with
  | nil => simp [sortByKey]
  | cons x xs ih =>
    unfold sortByKey
    rw [mem_insertByKey, ih]
    simp

/-- Models `slots.sort((a, b) => a.start - b.start)`: sorts the intervals
ascending by start. -/
def sortIvs (l : List Iv) : List Iv :=
  sortByKey Iv.start l

/-- The cursor walk of `findSlotForEstimate`: for each busy interval in
order, if `cursor + duration <= slot.start` return
`{cursor, cursor + duration}`, else advance the cursor to
`max(cursor, slot.end)`. -/
def sweep (d : Nat) : Nat → List Iv → Option (Nat × Nat)
  | _, [] => none
  | cursor, iv :: rest =>
    if cursor + d ≤ iv.start then some (cursor, cursor + d)
    else sweep d (max cursor iv.stop) rest

/-- Embeds `findSlotForEstimate` (MainPage.js) on the busy list of one date
after its `"HH:MM"` entries are converted by `timeToMinutes`: sort the
intervals by start, append the end-of-day sentinel `{1440, 1440}`, and walk
the cursor from 18:00 = 1080 minutes.  The returned slot is the pair of
minute values whose `minutesToTime` renderings the source returns. -/
def findSlotForEstimate (busy : List Iv) (duration : Nat) : Option (Nat × Nat) :=
  sweep duration 1080 (sortIvs busy ++ [⟨1440, 1440⟩])

/-- A candidate start `c` is free for duration `d` against a busy list when
the slot `[c, c+d)` overlaps none of the recorded intervals. -/
def slotFree (busy : List Iv) (c d : Nat) : Prop :=
  ∀ iv ∈ busy, ¬ overlaps ⟨c, c + d⟩ iv

instance (busy : List Iv) (c d : Nat) : Decidable (slotFree busy c d) := by
  unfold slotFree
  infer_instance

/-- A candidate start is feasible when it lies in the 18:00-24:00 search
window and is free against the busy list. -/
def feasible (busy : List Iv) (d c : Nat) : Prop :=
  1080 ≤ c ∧ c + d ≤ 1440 ∧ slotFree busy c d

lemma not_overlaps_slot {c d : Nat} {iv : Iv}
    (h : iv.stop ≤ c ∨ c + d ≤ iv.start) : ¬ overlaps ⟨c, c + d⟩ iv := by
  intro hov
  obtain ⟨h1, h2⟩ := hov
  simp only at h1 h2
  omega

lemma overlaps_slot {c d : Nat} {iv : Iv} (h1 : c < iv.stop) (h2 : iv.start < c + d) :
    overlaps ⟨c, c + d⟩ iv := ⟨h1, h2⟩

lemma sweep_sound (d : Nat) :
    ∀ (l : List Iv) (cursor c e : Nat),
      l.Pairwise (fun a b => a.start ≤ b.start) →
      sweep d cursor l = some (c, e) →
      e = c + d ∧ cursor ≤ c ∧ slotFree l c d ∧ ∃ iv ∈ l, c + d ≤ iv.start := by
  intro l
  induction l with
  | nil => intro cursor c e _ h; simp [sweep] at h
  | cons iv rest ih =>
    intro cursor c e hsort h
    rw [sweep] at h
    by_cases hc : cursor + d ≤ iv.start
    · rw [if_pos hc] at h
      injection h with h
      injection h with h1 h2
      subst h1
      subst h2
      refine ⟨rfl, le_refl _, ?_, ⟨iv, by simp, hc⟩⟩
      intro jv hjv
      rcases List.mem_cons.1 hjv with rfl | hjv
      · exact not_overlaps_slot (Or.inr hc)
      · have hle : iv.start ≤ jv.start := (List.pairwise_cons.1 hsort).1 jv hjv
        exact not_overlaps_slot (Or.inr (by omega))
    · rw [if_neg hc] at h
      obtain ⟨he, hcur, hfree, hwit⟩ :=
        ih (max cursor iv.stop) c e (List.pairwise_cons.1 hsort).2 h
      have hmax : max cursor iv.stop ≤ c := hcur
      refine ⟨he, le_trans (le_max_left _ _) hcur, ?_, ?_⟩
      · intro jv hjv
        rcases List.mem_cons.1 hjv with rfl | hjv
        · have : jv.stop ≤ max cursor jv.stop := le_max_right _ _
          exact not_overlaps_slot (Or.inl (by omega))
        · exact hfree jv hjv
      · obtain ⟨jv, hjv, hj⟩ := hwit
        exact ⟨jv, by simp [hjv], hj⟩

lemma sweep_complete (d : Nat) :
    ∀ (l : List Iv) (cursor c' : Nat),
      cursor ≤ c' → slotFree l c' d → (∃ iv ∈ l, c' + d ≤ iv.start) →
      ∃ c e, sweep d cursor l = some (c, e) ∧ c ≤ c' := by
  intro l
  induction l with
  | nil =>
    intro cursor c' _ _ hwit
    simp at hwit
  | cons iv rest ih =>
    intro cursor c' hcur hfree hwit
    rw [sweep]
    by_cases hc : cursor + d ≤ iv.start
    · exact ⟨cursor, cursor + d, by rw [if_pos hc], hcur⟩
    · rw [if_neg hc]
      have hivstart : iv.start < c' + d := by omega
      have hstop : iv.stop ≤ c' := by
        by_contra hlt
        exact hfree iv (by simp) (overlaps_slot (by omega) hivstart)
      have hwit' : ∃ jv ∈ rest, c' + d ≤ jv.start := by
        obtain ⟨jv, hjv, hj⟩ := hwit
        rcases List.mem_cons.1 hjv with rfl | hjv
        · omega
        · exact ⟨jv, hjv, hj⟩
      exact ih (max cursor iv.stop) c' (by omega)
        (fun jv hjv => hfree jv (by simp [hjv])) hwit'

lemma sortIvs_pairwise (l : List Iv) :
    (sortIvs l).Pairwise (fun a b => a.start ≤ b.start) :=
  sortByKey_pairwise l

lemma mem_sortIvs {iv : Iv} {l : List Iv} : iv ∈ sortIvs l ↔ iv ∈ l :=
  mem_sortByKey

/-- Soundness of the slot finder: a returned slot is `{c, c + d}` for a
feasible start `c`. -/
lemma findSlot_sound {busy : List Iv} {d c e : Nat}
    (hwf : ∀ iv ∈ busy, iv.start ≤ 1440)
    (h : findSlotForEstimate busy d = some (c, e)) :
    e = c + d ∧ feasible busy d c := by
  have hsorted : (sortIvs busy ++ [(⟨1440, 1440⟩ : Iv)]).Pairwise
      (fun a b => a.start ≤ b.start) := by
    rw [List.pairwise_append]
    refine ⟨sortIvs_pairwise busy, by simp, ?_⟩
    intro a ha b hb
    rw [List.mem_singleton] at hb
    subst hb
    exact hwf a (mem_sortIvs.1 ha)
  obtain ⟨he, hcur, hfree, hwit⟩ := sweep_sound d _ 1080 c e hsorted h
  refine ⟨he, hcur, ?_, ?_⟩
  · obtain ⟨iv, hiv, hle⟩ := hwit
    rcases List.mem_append.1 hiv with hiv | hiv
    · exact le_trans hle (hwf iv (mem_sortIvs.1 hiv))
    · rw [List.mem_singleton] at hiv
      subst hiv
      exact hle
  · intro iv hiv
    exact hfree iv (List.mem_append.2 (Or.inl (mem_sortIvs.2 hiv)))

/-- Completeness of the slot finder: whenever some feasible start exists,
the finder returns a slot starting no later than it. -/
lemma findSlot_complete {busy : List Iv} {d c' : Nat}
    (hfeas : feasible busy d c') :
    ∃ c e, findSlotForEstimate busy d = some (c, e) ∧ c ≤ c' := by
  obtain ⟨hwin, hend, hfree⟩ := hfeas
  apply sweep_complete d _ 1080 c' hwin
  · intro iv hiv
    rcases List.mem_append.1 hiv with hiv | hiv
    · exact hfree iv (mem_sortIvs.1 hiv)
    · rw [List.mem_singleton] at hiv
      subst hiv
      exact not_overlaps_slot (Or.inr hend)
  · exact ⟨⟨1440, 1440⟩, by simp, hend⟩

/-! ## The auto-scheduling orchestrator (`autoSchedule`) -/

/-- A calendar task document: id, date (day index) and the minute values of
its `startTime` and `time` (end-time) fields. -/
structure TaskDoc where
  tid : Nat
  date : Nat
  start : Nat
  stop : Nat
deriving DecidableEq

/-- A reminder as normalized by `getUnscheduledReminders`: id, due date
(day index), estimate in minutes and the optional link to a task. -/
structure SReminder where
  rid : Nat
  due : Nat
  estimate : Nat
  eventLink : Option Nat
deriving DecidableEq

/-- The per-date busy-slot index `{ date: [{start, end}, ...] }`. -/
abbrev Busy := Nat → List Iv

/-- Embeds `buildBusySlots` (MainPage.js): group the tasks by date, keeping
each task's `(startTime, time)` interval, in task-list order. -/
def buildBusySlots (tasks : List TaskDoc) : Busy :=
  fun date => (tasks.filter (fun t => t.date = date)).map (fun t => ⟨t.start, t.stop⟩)

/-- Models `busy[dateStr].push({start, end})`: append an interval to one
date's busy list. -/
def pushBusy (busy : Busy) (date : Nat) (iv : Iv) : Busy :=
  fun dt => if dt = date then busy dt ++ [iv] else busy dt

/-- The candidate dates `autoSchedule` iterates for one reminder: from
`iterDate = min(today, dueDate)` while `iterDate <= dueDate`, one day at a
time. -/
def datesToTry (today due : Nat) : List Nat :=
  List.range' (min today due) (due + 1 - min today due)

/-- The date loop of `autoSchedule`: query `findSlotForEstimate` on each
candidate date in order and stop at the first date that yields a slot. -/
def findDate (busy : Busy) (duration : Nat) : List Nat → Option (Nat × Nat × Nat)
  | [] => none
  | date :: rest =>
    match findSlotForEstimate (busy date) duration with
    | some (c, e) => some (date, c, e)
    | none => findDate busy duration rest

/-- One persistence operation recorded during a run: `createTask` for an
unlinked reminder, or `updateTask` on the linked task id. -/
inductive Op where
  | create (rid taskId date : Nat) (slot : Iv)
  | update (rid taskId date : Nat) (slot : Iv)
deriving DecidableEq

/-- The reminder id an operation was performed for. -/
def opRid : Op → Nat
  | .create rid _ _ _ => rid
  | .update rid _ _ _ => rid

/-- Models `updateTask(taskId, {date, startTime, endTime})`: rewrite the
matching task document in place. -/
def applyUpdateTask (tasks : List TaskDoc) (taskId date c e : Nat) : List TaskDoc :=
  tasks.map (fun t => if t.tid = taskId then { t with date := date, start := c, stop := e } else t)

/-- Models `updateReminderLink`: set `eventLink` on the reminder document
with the given id. -/
def setLink (rs : List SReminder) (rid taskId : Nat) : List SReminder :=
  rs.map (fun r => if r.rid = rid then { r with eventLink := some taskId } else r)

/-- The state threaded through one `autoSchedule` run: the task store, the
reminder store, the in-memory busy index, the next fresh task id the
document store will hand out, and the log of persistence operations. -/
structure SchedState where
  tasks : List TaskDoc
  reminders : List SReminder
  busy : Busy
  nextId : Nat
  ops : List Op

/-- The body of `autoSchedule`'s reminder loop for one reminder `r`: skip
when the duration is falsy, otherwise search the candidate dates; on a hit
either update the linked task or create a new task and write the back-link,
and in both cases push the consumed interval into the busy index. -/
def stepSched (today : Nat) (st : SchedState) (r : SReminder) : SchedState :=
  if r.estimate = 0 then st
  else
    match findDate st.busy r.estimate (datesToTry today r.due) with
    | none => st
    | some (date, c, e) =>
      match r.eventLink with
      | some t =>
        { st with
          tasks := applyUpdateTask st.tasks t date c e,
          busy := pushBusy st.busy date ⟨c, e⟩,
          ops := st.ops ++ [Op.update r.rid t date ⟨c, e⟩] }
      | none =>
        { tasks := st.tasks ++ [⟨st.nextId, date, c, e⟩],
          reminders := setLink st.reminders r.rid st.nextId,
          busy := pushBusy st.busy date ⟨c, e⟩,
          nextId := st.nextId + 1,
          ops := st.ops ++ [Op.create r.rid st.nextId date ⟨c, e⟩] }

/-- Models `reminders.sort((a, b) => new Date(a.dueDate) - new Date(b.dueDate))`. -/
def sortByDue (rs : List SReminder) : List SReminder :=
  sortByKey SReminder.due rs

/-- The document-store snapshot an `autoSchedule` run starts from. -/
structure Store where
  tasks : List TaskDoc
  reminders : List SReminder
deriving DecidableEq

/-- Embeds one `autoSchedule(userId)` run over a store snapshot: load the
reminders and tasks, build the busy index, sort the reminders by due date
and fold the scheduling step over them.  `nextId` seeds the ids the
document store hands out for created tasks. -/
def autoScheduleRun (today : Nat) (store : Store) (nextId : Nat) : SchedState :=
  (sortByDue store.reminders).foldl (stepSched today)
    ⟨store.tasks, store.reminders, buildBusySlots store.tasks, nextId, []⟩

/-- The store snapshot left behind by a run, as the next run would fetch it. -/
def storeOf (st : SchedState) : Store := ⟨st.tasks, st.reminders⟩

/-! ## `deleteTask` and link maintenance -/

/-- A user's document tree as far as `deleteTask` touches it: the task
collection, the personal `reminders` subcollection and the
`group_reminders` subcollection. -/
structure UserStore where
  tasks : List TaskDoc
  reminders : List SReminder
  groupReminders : List SReminder
deriving DecidableEq

/-- Embeds `deleteTask(firestoreId)` (MainPage.js): delete the task
document, then query the personal `reminders` collection for
`eventLink == firestoreId` and set `eventLink: null` on each hit.  The
`group_reminders` collection is not consulted. -/
def deleteTask (us : UserStore) (taskId : Nat) : UserStore :=
  { tasks := us.tasks.filter (fun t => ¬ t.tid = taskId),
    reminders := us.reminders.map
      (fun r => if r.eventLink = some taskId then { r with eventLink := none } else r),
    groupReminders := us.groupReminders }

/-! ## `getUnscheduledReminders` -/

/-- A raw reminder document as stored, before normalization.  The estimate
is an `Option Int`: absent (`none`) models a missing/null field, and the
payload is a JavaScript number, which may be zero or negative. -/
structure RawReminder where
  rid : Nat
  is_completed : Bool
  due_date : Option Nat
  estimate_minutes : Option Int
  eventLink : Option Nat
deriving DecidableEq

/-- A reminder normalized by `getUnscheduledReminders`, with the estimate
kept as the stored JavaScript number. -/
structure NReminder where
  rid : Nat
  dueDate : Nat
  estimate : Int
  eventLink : Option Nat
deriving DecidableEq

/-- Truthiness of the stored estimate: present and non-zero.  This is the
`data.estimate_minutes` test of the filter. -/
def estTruthy : Option Int → Bool
  | none => false
  | some n => n ≠ 0

/-- Embeds the filter of `getUnscheduledReminders` over one collection:
keep documents with `!data.is_completed && data.due_date &&
data.estimate_minutes` and normalize them. -/
def getUnscheduledReminders (docs : List RawReminder) : List NReminder :=
  (docs.filter (fun d => !d.is_completed && d.due_date.isSome && estTruthy d.estimate_minutes)).map
    (fun d => ⟨d.rid, d.due_date.getD 0, (d.estimate_minutes).getD 0, d.eventLink⟩)

/-- A reminder is attempted by `autoSchedule` when it survives the
`getUnscheduledReminders` filter and the loop guard
`if (!r.dueDate || !duration) continue`, whose duration half re-tests
truthiness of the estimate. -/
def attempted (docs : List RawReminder) (r : NReminder) : Prop :=
  r ∈ getUnscheduledReminders docs ∧ r.estimate ≠ 0

/-! ## `calculateDuration` -/

/-- Embeds `calculateDuration(startTime, endTime)` (MainPage.js).  It
returns the duration in HOURS as a decimal number (modelled as `ℚ`): empty
inputs and inputs without two `":"`-separated parts default to `1` (one
hour); otherwise the parts are read with `parseInt` (the minute parts
falling back to `0` via `|| 0`), 24 hours are added when the end is
numerically before the start, and the result `durationMinutes / 60` is
returned unless it is not greater than `0.083`, in which case `0.083` is
returned.  A `NaN` hour part makes every comparison false, so that path
also ends in the `0.083` branch. -/
def calculateDuration (startTime endTime : List Char) : ℚ :=
  if startTime = [] ∨ endTime = [] then 1
  else
    let startParts := splitOnColon startTime
    let endParts := splitOnColon endTime
    if startParts.length < 2 ∨ endParts.length < 2 then 1
    else
      match jsParseInt (startParts.headD []), jsParseInt (endParts.headD []) with
      | some startHour, some endHour =>
        let startMinute := (jsParseInt (startParts.getD 1 [])).getD 0
        let endMinute := (jsParseInt (endParts.getD 1 [])).getD 0
        let startTotal := startHour * 60 + startMinute
        let endTotal0 := endHour * 60 + endMinute
        let endTotal := if endTotal0 < startTotal then endTotal0 + 1440 else endTotal0
        let durationHours : ℚ := ((endTotal - startTotal : Nat) : ℚ) / 60
        if 83 / 1000 < durationHours then durationHours else 83 / 1000
      | _, _ => 83 / 1000

/-- A well-formed zero-padded 24-hour `"HH:MM"` string: exactly two digit
pairs separated by `":"`, with hours below 24 and minutes below 60. -/
def wellFormedHHMM (s : List Char) : Bool :=
  match s with
  | [h1, h2, c, m1, m2] =>
    c = ':' && isDigitB h1 && isDigitB h2 && isDigitB m1 && isDigitB m2 &&
      decide (10 * (h1.toNat - 48) + (h2.toNat - 48) < 24) &&
      decide (10 * (m1.toNat - 48) + (m2.toNat - 48) < 60)
  | _ => false

/-- The minute value encoded by a well-formed `"HH:MM"` string. -/
def hhmmVal (s : List Char) : Nat :=
  match s with
  | [h1, h2, _, m1, m2] =>
    (10 * (h1.toNat - 48) + (h2.toNat - 48)) * 60 + (10 * (m1.toNat - 48) + (m2.toNat - 48))
  | _ => 0

/-- Minute difference of two times of day, wrapping across midnight. -/
def wrapDiff (sm em : Nat) : Nat :=
  if em < sm then em + 1440 - sm else em - sm

lemma digitVal_of_isDigitB {c : Char} (h : isDigitB c) :
    digitVal c = some (c.toNat - 48) := by
  unfold isDigitB at h
  rw [Bool.and_eq_true, decide_eq_true_eq, decide_eq_true_eq] at h
  unfold digitVal
  rw [if_pos ⟨h.1, h.2⟩]

lemma decimalValue_two_digits {a b : Char} (ha : isDigitB a) (hb : isDigitB b) :
    decimalValue [a, b] = some (10 * (a.toNat - 48) + (b.toNat - 48)) := by
  simp [decimalValue, digitVal_of_isDigitB ha, digitVal_of_isDigitB hb]

lemma jsParseInt_two_digits {a b : Char} (ha : isDigitB a) (hb : isDigitB b) :
    jsParseInt [a, b] = some (10 * (a.toNat - 48) + (b.toNat - 48)) := by
  unfold jsParseInt
  simp [List.takeWhile, ha, hb, decimalValue_two_digits ha hb]

lemma splitOnColon_wf {h1 h2 m1 m2 : Char} (hh1 : isDigitB h1) (hh2 : isDigitB h2)
    (hm1 : isDigitB m1) (hm2 : isDigitB m2) :
    splitOnColon [h1, h2, ':', m1, m2] = [[h1, h2], [m1, m2]] := by
  have hcolon : ∀ c, isDigitB c → c ≠ ':' := by
    intro c hc h
    subst h
    exact absurd hc (by decide)
  have hnh : ∀ c ∈ [h1, h2], c ≠ ':' := by
    intro c hc
    simp only [List.mem_cons, List.not_mem_nil, or_false] at hc
    rcases hc with rfl | rfl
    · exact hcolon _ hh1
    · exact hcolon _ hh2
  have hnm : ∀ c ∈ [m1, m2], c ≠ ':' := by
    intro c hc
    simp only [List.mem_cons, List.not_mem_nil, or_false] at hc
    rcases hc with rfl | rfl
    · exact hcolon _ hm1
    · exact hcolon _ hm2
  rw [show [h1, h2, ':', m1, m2] = [h1, h2] ++ ':' :: [m1, m2] from rfl,
    splitOnColon_no_colon_append hnh, splitOnColon_no_colon hnm]

/-! ## Run invariants -/

/-- Every recorded busy interval starts within the day (its `"HH:MM"`
start time parses to at most 24:00 = 1440 minutes). -/
def busyWF (busy : Busy) : Prop := ∀ dt, ∀ iv ∈ busy dt, iv.start ≤ 1440

/-- Every date's recorded busy intervals are pairwise non-overlapping. -/
def busyDisjoint (busy : Busy) : Prop :=
  ∀ dt, (busy dt).Pairwise (fun a b => ¬ overlaps a b)

lemma findDate_sound {busy : Busy} {d : Nat} :
    ∀ {dates : List Nat} {date c e : Nat},
      findDate busy d dates = some (date, c, e) →
      findSlotForEstimate (busy date) d = some (c, e) := by
  intro dates
  induction dates with
  | nil => intro date c e h; simp [findDate] at h
  | cons dt rest ih =>
    intro date c e h
    rw [findDate] at h
    cases hs : findSlotForEstimate (busy dt) d with
    | some res =>
      rw [hs] at h
      obtain ⟨c0, e0⟩ := res
      injection h with h
      injection h with h1 h2
      subst h1
      rw [← h2]
      exact hs
    | none =>
      rw [hs] at h
      exact ih h

lemma pushBusy_preserves {busy : Busy} {date c e d : Nat}
    (hwf : busyWF busy) (hdisj : busyDisjoint busy)
    (hslot : findSlotForEstimate (busy date) d = some (c, e)) :
    busyWF (pushBusy busy date ⟨c, e⟩) ∧ busyDisjoint (pushBusy busy date ⟨c, e⟩) := by
  obtain ⟨he, hwin, hend, hfree⟩ := findSlot_sound (hwf date) hslot
  subst he
  constructor
  · intro dt iv hiv
    unfold pushBusy at hiv
    by_cases hdt : dt = date
    · rw [if_pos hdt] at hiv
      rcases List.mem_append.1 hiv with hiv | hiv
      · exact hwf dt iv hiv
      · rw [List.mem_singleton] at hiv
        subst hiv
        simp only
        omega
    · rw [if_neg hdt] at hiv
      exact hwf dt iv hiv
  · intro dt
    unfold pushBusy
    by_cases hdt : dt = date
    · rw [if_pos hdt, List.pairwise_append]
      subst hdt
      refine ⟨hdisj dt, by simp, ?_⟩
      intro a ha b hb
      rw [List.mem_singleton] at hb
      subst hb
      intro hov
      exact hfree a ha (overlaps_symm hov)
    · rw [if_neg hdt]
      exact hdisj dt

lemma stepSched_preserves {today : Nat} {st : SchedState} {r : SReminder}
    (h : busyWF st.busy ∧ busyDisjoint st.busy) :
    busyWF (stepSched today st r).busy ∧ busyDisjoint (stepSched today st r).busy := by
  unfold stepSched
  split
  · exact h
  · cases hfd : findDate st.busy r.estimate (datesToTry today r.due) with
    | none => simp only [hfd]; exact h
    | some res =>
      obtain ⟨date, c, e⟩ := res
      simp only [hfd]
      have hpush := pushBusy_preserves h.1 h.2 (findDate_sound hfd)
      cases r.eventLink with
      | some t => exact hpush
      | none => exact hpush

lemma foldl_stepSched_preserves (today : Nat) :
    ∀ (rs : List SReminder) (st : SchedState),
      busyWF st.busy ∧ busyDisjoint st.busy →
      busyWF (rs.foldl (stepSched today) st).busy ∧
        busyDisjoint (rs.foldl (stepSched today) st).busy := by
  intro rs
  induction rs with
  | nil => intro st h; exact h
  | cons r rs ih =>
    intro st h
    rw [List.foldl_cons]
    exact ih _ (stepSched_preserves h)

lemma stepSched_ops (today : Nat) (st : SchedState) (r : SReminder) :
    (stepSched today st r).ops = st.ops ∨
    (∃ date slot, r.eventLink = none ∧
        (stepSched today st r).ops = st.ops ++ [Op.create r.rid st.nextId date slot]) ∨
    (∃ t date slot, r.eventLink = some t ∧
        (stepSched today st r).ops = st.ops ++ [Op.update r.rid t date slot]) := by
  unfold stepSched
  split
  · exact Or.inl rfl
  · cases hfd : findDate st.busy r.estimate (datesToTry today r.due) with
    | none => exact Or.inl (by simp [hfd])
    | some res =>
      obtain ⟨date, c, e⟩ := res
      cases hl : r.eventLink with
      | some t =>
        exact Or.inr (Or.inr ⟨t, date, ⟨c, e⟩, rfl, by simp [hfd, hl]⟩)
      | none =>
        exact Or.inr (Or.inl ⟨date, ⟨c, e⟩, rfl, by simp [hfd, hl]⟩)

lemma foldl_ops_linked (today : Nat) :
    ∀ (rs : List SReminder) (st : SchedState) (rid t : Nat),
      (∀ r' ∈ rs, r'.rid = rid → r'.eventLink = some t) →
      ∀ op ∈ (rs.foldl (stepSched today) st).ops, opRid op = rid →
        op ∈ st.ops ∨ ∃ date slot, op = Op.update rid t date slot := by
  intro rs
  induction rs with
  | nil => intro st rid t _ op hop _; exact Or.inl hop
  | cons r rs ih =>
    intro st rid t hall op hop hrid
    rw [List.foldl_cons] at hop
    rcases ih (stepSched today st r) rid t (fun r' h => hall r' (by simp [h])) op hop hrid
      with h | h
    · rcases stepSched_ops today st r with he | ⟨date, slot, hnone, he⟩ |
        ⟨t', date, slot, hsome, he⟩
      · rw [he] at h
        exact Or.inl h
      · rw [he] at h
        rcases List.mem_append.1 h with h | h
        · exact Or.inl h
        · rw [List.mem_singleton] at h
          subst h
          have hr : r.rid = rid := by simpa [opRid] using hrid
          have hlk : r.eventLink = some t := hall r (by simp) hr
          rw [hnone] at hlk
          cases hlk
      · rw [he] at h
        rcases List.mem_append.1 h with h | h
        · exact Or.inl h
        · rw [List.mem_singleton] at h
          subst h
          have hr : r.rid = rid := by simpa [opRid] using hrid
          have hlk : r.eventLink = some t := hall r (by simp) hr
          rw [hsome] at hlk
          injection hlk with hlk
          subst hlk
          exact Or.inr ⟨date, slot, by rw [hr]⟩
    · exact Or.inr h

lemma stepSched_rids (today : Nat) (st : SchedState) (r : SReminder) :
    (stepSched today st r).reminders.map SReminder.rid =
      st.reminders.map SReminder.rid := by
  unfold stepSched
  split
  · rfl
  · cases hfd : findDate st.busy r.estimate (datesToTry today r.due) with
    | none => simp [hfd]
    | some res =>
      obtain ⟨date, c, e⟩ := res
      simp only [hfd]
      cases r.eventLink with
      | some t => rfl
      | none =>
        simp only [setLink]
        rw [List.map_map]
        apply List.map_congr_left
        intro x _
        by_cases hx : x.rid = r.rid <;> simp [hx]

lemma foldl_rids (today : Nat) :
    ∀ (rs : List SReminder) (st : SchedState),
      (rs.foldl (stepSched today) st).reminders.map SReminder.rid =
        st.reminders.map SReminder.rid := by
  intro rs
  induction rs with
  | nil => intro st; rfl
  | cons r rs ih =>
    intro st
    rw [List.foldl_cons, ih, stepSched_rids]

/-! ## Claim theorems -/

/-- C2: for every busy list of a date (whose interval starts are times of
day, at most 24:00 = 1440) and every duration `d > 0`,
`findSlotForEstimate` returns `{c, c + d}` for the smallest start `c` with
`1080 ≤ c`, `c + d ≤ 1440` and no overlap with any busy interval, and
returns `none` exactly when no such start exists. -/
theorem findSlot_first_fit (busy : List Iv) (d : Nat) (hd : 0 < d)
    (hwf : ∀ iv ∈ busy, iv.start ≤ 1440) :
    (∀ c e, findSlotForEstimate busy d = some (c, e) →
        e = c + d ∧ feasible busy d c ∧ ∀ c', c' < c → ¬ feasible busy d c') ∧
    (findSlotForEstimate busy d = none → ∀ c, ¬ feasible busy d c) := by
  constructor
  · intro c e hsome
    obtain ⟨he, hfeas⟩ := findSlot_sound hwf hsome
    refine ⟨he, hfeas, ?_⟩
    intro c' hc' hfeas'
    obtain ⟨c0, e0, h0, hle⟩ := findSlot_complete hfeas'
    rw [hsome] at h0
    injection h0 with h0
    injection h0 with h1 h2
    omega
  · intro hnone c hfeas
    obtain ⟨c0, e0, h0, _⟩ := findSlot_complete hfeas
    rw [hnone] at h0
    cases h0

/-- Witness for C2, instantiating the day fully packed 18:00-24:00 (spec
property P4): the finder returns `none` and indeed no feasible start
exists, for duration 1. -/
theorem findSlot_first_fit_witness :
    ((0 : Nat) < 1 ∧ ∀ iv ∈ [(⟨1080, 1440⟩ : Iv)], iv.start ≤ 1440) ∧
    findSlotForEstimate [⟨1080, 1440⟩] 1 = none ∧
    ∀ c, ¬ feasible [⟨1080, 1440⟩] 1 c := by
  have hnone : findSlotForEstimate [⟨1080, 1440⟩] 1 = none := by decide
  exact ⟨⟨by decide, by decide⟩,
    hnone, (findSlot_first_fit [⟨1080, 1440⟩] 1 (by decide) (by decide)).2 hnone⟩

/-- C1: one `autoSchedule` run preserves per-date pairwise
non-overlapping of the busy-slot index.  Each slot a reminder is assigned
is appended to the index of its date after being checked free against
everything already recorded there (pre-existing task intervals and slots
assigned to earlier reminders in the same run), so pairwise
non-overlapping of the final per-date interval lists — equivalent to the
sorted-by-start formulation because the non-overlap relation is symmetric
— states exactly that no assigned slot collides with anything recorded
before it, provided the pre-existing intervals did not already overlap. -/
theorem autoSchedule_no_double_booking (today nextId : Nat) (store : Store)
    (hwf : busyWF (buildBusySlots store.tasks))
    (hdisj : busyDisjoint (buildBusySlots store.tasks)) :
    busyDisjoint (autoScheduleRun today store nextId).busy := by
  unfold autoScheduleRun
  exact (foldl_stepSched_preserves today _ _ ⟨hwf, hdisj⟩).2

/-- Witness for C1: an empty calendar with one 30-minute reminder due
today satisfies the hypotheses, and the run's busy index stays pairwise
non-overlapping. -/
theorem autoSchedule_no_double_booking_witness :
    busyWF (buildBusySlots ([] : List TaskDoc)) ∧
    busyDisjoint (buildBusySlots ([] : List TaskDoc)) ∧
    busyDisjoint (autoScheduleRun 0 ⟨[], [⟨1, 0, 30, none⟩]⟩ 0).busy := by
  have hwf : busyWF (buildBusySlots ([] : List TaskDoc)) := by
    intro dt iv hiv
    simp [buildBusySlots] at hiv
  have hdisj : busyDisjoint (buildBusySlots ([] : List TaskDoc)) := by
    intro dt
    simp [buildBusySlots]
  exact ⟨hwf, hdisj, autoSchedule_no_double_booking 0 0 ⟨[], [⟨1, 0, 30, none⟩]⟩ hwf hdisj⟩

/-- C3: the candidate-date iteration starts at `min(today, dueDate)`, so
for a reminder 5 days overdue (due day 5, today day 10) the one and only
date queried is the past due date 5, not today — evaluating the embedded
model at the failing input. -/
theorem overdue_search_starts_at_due_date :
    datesToTry 10 5 = [5] ∧ (5 : Nat) < 10 := by decide

/-- C4 counterexample: deleting task 7 leaves a group-fanout reminder
whose `eventLink` equals 7 uncleared, because `deleteTask` only queries
the personal `reminders` collection. -/
theorem deleteTask_misses_group_reminder :
    ((deleteTask ⟨[⟨7, 0, 1080, 1110⟩], [], [⟨1, 3, 30, some 7⟩]⟩ 7).groupReminders.map
        SReminder.eventLink) = [some 7] := by decide

/-- C4 amended: after `deleteTask taskId`, no personal reminder still
links to `taskId`, while the `group_reminders` collection is left entirely
untouched. -/
theorem deleteTask_unlinks_personal_only (us : UserStore) (taskId : Nat) :
    (∀ r ∈ (deleteTask us taskId).reminders, r.eventLink ≠ some taskId) ∧
    (deleteTask us taskId).groupReminders = us.groupReminders := by
  constructor
  · intro r hr
    unfold deleteTask at hr
    simp only [List.mem_map] at hr
    obtain ⟨r0, hr0, heq⟩ := hr
    by_cases h : r0.eventLink = some taskId
    · rw [if_pos h] at heq
      rw [← heq]
      simp
    · rw [if_neg h] at heq
      rw [← heq]
      exact h
  · rfl

/-- C5: running `autoSchedule` again on the state left by a run never
creates a task for a reminder that carries an `eventLink`: every
operation the second run performs for such a reminder is an `updateTask`
on exactly the linked task id. -/
theorem autoSchedule_rerun_no_create (today n0 : Nat) (store : Store)
    (hnd : (store.reminders.map SReminder.rid).Nodup)
    (r : SReminder) (t : Nat)
    (hr : r ∈ (autoScheduleRun today store n0).reminders)
    (hl : r.eventLink = some t) :
    ∀ op ∈ (autoScheduleRun today (storeOf (autoScheduleRun today store n0))
        (autoScheduleRun today store n0).nextId).ops,
      opRid op = r.rid → ∃ date slot, op = Op.update r.rid t date slot := by
  intro op hop hrid
  have hnd1 : ((autoScheduleRun today store n0).reminders.map SReminder.rid).Nodup := by
    unfold autoScheduleRun
    rw [foldl_rids]
    exact hnd
  have hall : ∀ r' ∈ sortByDue (autoScheduleRun today store n0).reminders,
      r'.rid = r.rid → r'.eventLink = some t := by
    intro r' hr' heq
    have hmem : r' ∈ (autoScheduleRun today store n0).reminders := by
      unfold sortByDue at hr'
      exact mem_sortByKey.1 hr'
    have : r' = r := List.inj_on_of_nodup_map hnd1 hmem hr heq
    rw [this, hl]
  have hmain := foldl_ops_linked today
    (sortByDue (autoScheduleRun today store n0).reminders)
    ⟨(autoScheduleRun today store n0).tasks, (autoScheduleRun today store n0).reminders,
      buildBusySlots (autoScheduleRun today store n0).tasks,
      (autoScheduleRun today store n0).nextId, []⟩ r.rid t hall op hop hrid
  rcases hmain with h | h
  · cases h
  · exact h

/-- Witness for C5: one reminder already linked to task 5; the hypotheses
hold concretely and every second-run operation for it is an update on
task 5. -/
theorem autoSchedule_rerun_no_create_witness :
    (((⟨[⟨5, 0, 1080, 1110⟩], [⟨1, 0, 30, some 5⟩]⟩ : Store).reminders.map
        SReminder.rid).Nodup ∧
      (⟨1, 0, 30, some 5⟩ : SReminder) ∈
        (autoScheduleRun 0 ⟨[⟨5, 0, 1080, 1110⟩], [⟨1, 0, 30, some 5⟩]⟩ 10).reminders ∧
      (⟨1, 0, 30, some 5⟩ : SReminder).eventLink = some 5) ∧
    ∀ op ∈ (autoScheduleRun 0
        (storeOf (autoScheduleRun 0 ⟨[⟨5, 0, 1080, 1110⟩], [⟨1, 0, 30, some 5⟩]⟩ 10))
        (autoScheduleRun 0 ⟨[⟨5, 0, 1080, 1110⟩], [⟨1, 0, 30, some 5⟩]⟩ 10).nextId).ops,
      opRid op = (⟨1, 0, 30, some 5⟩ : SReminder).rid →
        ∃ date slot, op = Op.update (⟨1, 0, 30, some 5⟩ : SReminder).rid 5 date slot := by
  refine ⟨⟨by decide, by decide, rfl⟩, ?_⟩
  exact autoSchedule_rerun_no_create 0 10 ⟨[⟨5, 0, 1080, 1110⟩], [⟨1, 0, 30, some 5⟩]⟩
    (by decide) ⟨1, 0, 30, some 5⟩ 5 (by decide) rfl

lemma padStart2_digits_ne_colon {n : Nat} : ∀ c ∈ padStart2 (toDigitChars n), c ≠ ':' := by
  intro c hc hcolon
  have := mem_padStart2_digit (fun x hx => mem_toDigitChars_digit hx) hc
  subst hcolon
  simp [digitVal] at this

/-- C6 counterexample: `minutesToTime 1440` is `"24:00"`, not the
`"00:00"` that reduction modulo 1440 would give. -/
theorem minutesToTime_1440 :
    minutesToTime 1440 = "24:00".toList ∧ minutesToTime 1440 ≠ "00:00".toList := by
  decide

/-- C6 amended: the `"HH:MM"` string produced by `minutesToTime m` has
fields encoding `m / 60` hours (not reduced modulo 24 or 1440) and
`m % 60` minutes, so the encoded value is `m` itself, not `m % 1440`. -/
theorem minutesToTime_fields (m : Nat) :
    (splitOnColon (minutesToTime m)).map jsNumber = [some (m / 60), some (m % 60)] := by
  unfold minutesToTime
  rw [splitOnColon_no_colon_append padStart2_digits_ne_colon,
      splitOnColon_no_colon padStart2_digits_ne_colon]
  simp only [List.map_cons, List.map_nil]
  rw [show jsNumber (padStart2 (toDigitChars (m / 60))) = some (m / 60) from
        decimalValue_padStart2 (decimalValue_toDigitChars _),
      show jsNumber (padStart2 (toDigitChars (m % 60))) = some (m % 60) from
        decimalValue_padStart2 (decimalValue_toDigitChars _)]

/-- C10: converting any minute count to a time string and back is the
identity, `timeToMinutes (minutesToTime m) = some m`, also for `m ≥ 1440`;
hence every interval the scheduler records into the busy index as strings
re-parses to exactly the minute values it was computed from. -/
theorem timeToMinutes_roundTrip (m : Nat) : timeToMinutes (minutesToTime m) = some m :=
  timeToMinutes_minutesToTime m

lemma wellFormed_shape {s : List Char} (hwf : wellFormedHHMM s) :
    ∃ a b m1 m2, s = [a, b, ':', m1, m2] ∧ isDigitB a ∧ isDigitB b ∧
      isDigitB m1 ∧ isDigitB m2 ∧
      10 * (a.toNat - 48) + (b.toNat - 48) < 24 ∧
      10 * (m1.toNat - 48) + (m2.toNat - 48) < 60 := by
  cases s with
  | nil => simp [wellFormedHHMM] at hwf
  | cons a s1 =>
  cases s1 with
  | nil => simp [wellFormedHHMM] at hwf
  | cons b s2 =>
  cases s2 with
  | nil => simp [wellFormedHHMM] at hwf
  | cons c s3 =>
  cases s3 with
  | nil => simp [wellFormedHHMM] at hwf
  | cons m1 s4 =>
  cases s4 with
  | nil => simp [wellFormedHHMM] at hwf
  | cons m2 s5 =>
  cases s5 with
  | cons x s6 => simp [wellFormedHHMM] at hwf
  | nil =>
    unfold wellFormedHHMM at hwf
    simp only [Bool.and_eq_true, decide_eq_true_eq] at hwf
    obtain ⟨⟨⟨⟨⟨⟨hc, ha⟩, hb⟩, hm1⟩, hm2⟩, h24⟩, h60⟩ := hwf
    subst hc
    exact ⟨a, b, m1, m2, rfl, ha, hb, hm1, hm2, h24, h60⟩

/-- C8 counterexample: `"1:2:3"` does not split into two numeric parts,
yet `timeToMinutes` silently returns the number 62 (the third part is
dropped by the destructuring) instead of failing with any error. -/
theorem timeToMinutes_silent : timeToMinutes "1:2:3".toList = some 62 := by decide

/-- C8 amended: `timeToMinutes` raises no error on malformed input (it
yields a number, or `NaN` modelled as `none`); on every well-formed
zero-padded `"HH:MM"` string it returns the encoded value, which lies in
`[0, 1440)`. -/
theorem timeToMinutes_wellFormed (s : List Char) (h : wellFormedHHMM s) :
    timeToMinutes s = some (hhmmVal s) ∧ hhmmVal s < 1440 := by
  obtain ⟨a, b, m1, m2, rfl, ha, hb, hm1, hm2, h24, h60⟩ := wellFormed_shape h
  constructor
  · unfold timeToMinutes
    rw [splitOnColon_wf ha hb hm1 hm2]
    simp only [List.map_cons, List.map_nil]
    rw [show jsNumber [a, b] = some (10 * (a.toNat - 48) + (b.toNat - 48)) from
          decimalValue_two_digits ha hb,
        show jsNumber [m1, m2] = some (10 * (m1.toNat - 48) + (m2.toNat - 48)) from
          decimalValue_two_digits hm1 hm2]
    rfl
  · show (10 * (a.toNat - 48) + (b.toNat - 48)) * 60 +
      (10 * (m1.toNat - 48) + (m2.toNat - 48)) < 1440
    omega

/-- Witness for C8's amended theorem at the concrete input `"18:30"`. -/
theorem timeToMinutes_wellFormed_witness :
    wellFormedHHMM "18:30".toList ∧
    timeToMinutes "18:30".toList = some (hhmmVal "18:30".toList) ∧
    hhmmVal "18:30".toList < 1440 := by
  refine ⟨by decide, (timeToMinutes_wellFormed _ (by decide)).1,
    (timeToMinutes_wellFormed _ (by decide)).2⟩

lemma calculateDuration_wf_eq (s e : List Char)
    (hs : wellFormedHHMM s) (he : wellFormedHHMM e) :
    calculateDuration s e =
      max ((wrapDiff (hhmmVal s) (hhmmVal e) : ℚ) / 60) (83 / 1000) := by
  obtain ⟨a, b, m1, m2, rfl, ha, hb, hm1, hm2, h24s, h60s⟩ := wellFormed_shape hs
  obtain ⟨a2, b2, n1, n2, rfl, ha2, hb2, hn1, hn2, h24e, h60e⟩ := wellFormed_shape he
  unfold calculateDuration
  rw [if_neg (by simp)]
  simp only [splitOnColon_wf ha hb hm1 hm2, splitOnColon_wf ha2 hb2 hn1 hn2]
  rw [if_neg (by simp)]
  simp only [List.headD_cons, List.getD_cons_zero, List.getD_cons_succ]
  rw [jsParseInt_two_digits ha hb, jsParseInt_two_digits ha2 hb2,
    jsParseInt_two_digits hm1 hm2, jsParseInt_two_digits hn1 hn2]
  simp only [Option.getD_some]
  set sv := 10 * (a.toNat - 48) + (b.toNat - 48) with hsv
  set sm := 10 * (m1.toNat - 48) + (m2.toNat - 48) with hsm
  set ev := 10 * (a2.toNat - 48) + (b2.toNat - 48) with hev
  set em := 10 * (n1.toNat - 48) + (n2.toNat - 48) with hem
  have hvals : hhmmVal [a, b, ':', m1, m2] = sv * 60 + sm := rfl
  have hvale : hhmmVal [a2, b2, ':', n1, n2] = ev * 60 + em := rfl
  rw [hvals, hvale]
  have hdm : ((if ev * 60 + em < sv * 60 + sm then ev * 60 + em + 1440 else ev * 60 + em) -
      (sv * 60 + sm) : Nat) = wrapDiff (sv * 60 + sm) (ev * 60 + em) := by
    unfold wrapDiff
    split <;> rfl
  rw [hdm]
  rcases le_or_lt ((wrapDiff (sv * 60 + sm) (ev * 60 + em) : ℚ) / 60) (83 / 1000) with hle | hlt
  · rw [if_neg (not_lt.2 hle), max_eq_right hle]
  · rw [if_pos hlt, max_eq_left (le_of_lt hlt)]

/-- C7 counterexample: `calculateDuration("23:30", "00:15")` is `3/4` — the
function returns HOURS (45/60 of an hour), not the 45 minutes the claim
states. -/
theorem calculateDuration_2330_0015 :
    calculateDuration "23:30".toList "00:15".toList = 3 / 4 ∧ (3 / 4 : ℚ) ≠ 45 := by
  constructor
  · rw [calculateDuration_wf_eq _ _ (by decide) (by decide),
      show wrapDiff (hhmmVal "23:30".toList) (hhmmVal "00:15".toList) = 45 from by decide,
      max_eq_left (by norm_num)]
    norm_num
  · norm_num

/-- C7 amended: on well-formed `"HH:MM"` inputs, `calculateDuration`
returns the duration in hours: the minute difference (with 1440 added when
the naive difference is negative) divided by 60, clamped below at the
literal `0.083` hours; in particular `calculateDuration("23:30", "00:15")`
is `0.75` hours, i.e. 45 minutes. -/
theorem calculateDuration_hours (s e : List Char)
    (hs : wellFormedHHMM s) (he : wellFormedHHMM e) :
    calculateDuration s e =
      max ((wrapDiff (hhmmVal s) (hhmmVal e) : ℚ) / 60) (83 / 1000) :=
  calculateDuration_wf_eq s e hs he

/-- Witness for C7's amended theorem at the midnight-crossing pair of the
claim: `calculateDuration("23:30", "00:15") = max (45/60) 0.083 = 0.75`. -/
theorem calculateDuration_hours_witness :
    wellFormedHHMM "23:30".toList ∧ wellFormedHHMM "00:15".toList ∧
    calculateDuration "23:30".toList "00:15".toList =
      max ((wrapDiff (hhmmVal "23:30".toList) (hhmmVal "00:15".toList) : ℚ) / 60)
        (83 / 1000) := by
  exact ⟨by decide, by decide, calculateDuration_hours _ _ (by decide) (by decide)⟩

/-- C9 counterexample: a stored, uncompleted reminder with a due date and
the negative estimate `-30` minutes survives the
`getUnscheduledReminders` filter and the loop guard, so `autoSchedule`
does attempt it even though its estimate is not strictly positive. -/
theorem negative_estimate_attempted :
    attempted [⟨1, false, some 3, some (-30), none⟩] ⟨1, 3, -30, none⟩ := by
  constructor
  · decide
  · decide

lemma getUnscheduled_mem_iff (docs : List RawReminder) (r : NReminder) :
    r ∈ getUnscheduledReminders docs ↔
      ∃ d ∈ docs, d.is_completed = false ∧ d.due_date.isSome ∧
        (∃ est : Int, d.estimate_minutes = some est ∧ est ≠ 0) ∧
        r = ⟨d.rid, d.due_date.getD 0, d.estimate_minutes.getD 0, d.eventLink⟩ := by
  unfold getUnscheduledReminders
  rw [List.mem_map]
  constructor
  · rintro ⟨d, hd, rfl⟩
    rw [List.mem_filter] at hd
    obtain ⟨hmem, hP⟩ := hd
    simp only [Bool.and_eq_true, Bool.not_eq_true'] at hP
    obtain ⟨⟨hc, hdue⟩, hest⟩ := hP
    refine ⟨d, hmem, hc, hdue, ?_, rfl⟩
    cases hem : d.estimate_minutes with
    | none => rw [hem] at hest; cases hest
    | some est =>
      refine ⟨est, rfl, ?_⟩
      rw [hem] at hest
      simpa [estTruthy] using hest
  · rintro ⟨d, hmem, hc, hdue, ⟨est, hem, hne⟩, rfl⟩
    refine ⟨d, ?_, rfl⟩
    rw [List.mem_filter]
    refine ⟨hmem, ?_⟩
    simp [hc, hdue, estTruthy, hem, hne]

/-- C9 amended: `autoSchedule` attempts exactly the reminders that are not
completed, have a due date, and have a present, non-zero (truthy)
estimate — the estimate need not be strictly positive, since the filter
only tests JavaScript truthiness of `estimate_minutes`. -/
theorem attempted_iff (docs : List RawReminder) (r : NReminder) :
    attempted docs r ↔
      ∃ d ∈ docs, d.is_completed = false ∧ d.due_date.isSome ∧
        (∃ est : Int, d.estimate_minutes = some est ∧ est ≠ 0) ∧
        r = ⟨d.rid, d.due_date.getD 0, d.estimate_minutes.getD 0, d.eventLink⟩ := by
  unfold attempted
  rw [getUnscheduled_mem_iff]
  constructor
  · rintro ⟨h, -⟩
    exact h
  · rintro ⟨d, hmem, hc, hdue, ⟨est, hem, hne⟩, rfl⟩
    refine ⟨⟨d, hmem, hc, hdue, ⟨est, hem, hne⟩, rfl⟩, ?_⟩
    simp [hem, hne]
